import Mathlib

/-!
# Shallow embedding of `many_to_one.go` (loggregator/go-diodes)

This file embeds the `ManyToOne` diode (a fixed-capacity many-writer /
single-reader ring buffer) as a sequential state machine and proves the
specification's claims about it.

Modelling conventions:
* `uint64` values are `Nat` together with explicit `% 2^64` wherever the Go
  code can overflow (`atomic.AddUint64`, `d.readIndex++`, unsigned
  subtraction).
* The slot array `buffer []unsafe.Pointer` becomes
  `List (Option (Bucket α))`: `none` is the `nil` pointer, `some b` a
  pointer to a `bucket` value.  The generic payload `GenericDataType`
  (an untyped pointer in Go) becomes a type parameter `α`.
* Go panics (index `% 0` on a zero-length buffer, `make` with negative
  length, dereferencing a `nil` `*bucket`) are modelled as `none` results.
* The `Alerter` callback is modelled by returning the list of `int`
  arguments that `d.alerter.Alert` was called with during a `TryNext`
  (Go's `int` is 64-bit; the `uint64 → int` conversion is made explicit).
* Atomics and the `sync.RWMutex` have no observable effect in this
  sequential (single-goroutine-at-a-time) semantics; the compare-and-swap
  operations are kept as explicit equality tests on the current slot
  contents, matching the pointer comparison the hardware performs.
-/

/-- The modulus `2^64` of Go's `uint64` arithmetic. -/
def U64 : Nat := 2 ^ 64

/-- Go unsigned 64-bit subtraction `a - b` (wraps modulo `2^64`);
`a` is assumed already reduced mod `2^64`, `b` is reduced here
(matching Go's `uint64(len(d.buffer))` conversion). -/
def sub64 (a b : Nat) : Nat := (a + U64 - b % U64) % U64

/-- Go's conversion `int(x)` of a `uint64` value `x` to a signed 64-bit
`int` (two's complement reinterpretation). -/
def int64ofUInt64 (n : Nat) : Int := if n < 2 ^ 63 then (n : Int) else (n : Int) - (U64 : Int)

/-- The `bucket` struct: a written value together with the sequence number
of the write that produced it (`data GenericDataType; seq uint64`). -/
structure Bucket (α : Type) where
  data : α
  seq : Nat
deriving DecidableEq, Repr

/-- The `ManyToOne` diode state: write cursor, slot array, read cursor.
The `alerter` callback and the mutex are not part of the sequential state
(alert invocations are returned by `TryNext` instead). -/
structure ManyToOne (α : Type) where
  writeIndex : Nat
  buffer : List (Option (Bucket α))
  readIndex : Nat
deriving DecidableEq, Repr

namespace ManyToOne

/-- Construction for a nonnegative size: `make([]unsafe.Pointer, size)`
zero-fills the slots, `readIndex` starts at `0`, and
`d.writeIndex = ^d.writeIndex` sets the write cursor to the all-ones
value `2^64 - 1` ("the value before 0"). -/
def fresh (α : Type) (size : Nat) : ManyToOne α :=
  { writeIndex := U64 - 1
    buffer := List.replicate size none
    readIndex := 0 }

/-- The constructor `NewManyToOne(size int, alerter Alerter)`.  A negative `size` makes
`make([]unsafe.Pointer, size)` panic at construction (`none`); any
`size >= 0` succeeds.  The function performs no validation of its own. -/
def NewManyToOne (α : Type) (size : Int) : Option (ManyToOne α) :=
  if size < 0 then none else some (fresh α size.toNat)

/-- The collision test of `Set`'s loop body, for the freshly claimed
sequence number `s`:
`old != nil && (*bucket)(old) != nil && (*bucket)(old).seq > writeIndex - uint64(len(d.buffer))`. -/
def collides (buf : List (Option (Bucket α))) (s : Nat) : Bool :=
  match buf.getD (s % buf.length) none with
  | some b => decide (b.seq > sub64 s buf.length)
  | none => false

/-- One-or-more iterations of `Set`'s retry loop, fuelled.  Each iteration:
atomically increment the write cursor (`atomic.AddUint64` returns the new
value `s`), load the slot at `s % len(buffer)`, retry on a collision,
otherwise compare-and-swap the slot from the loaded `old` to the new
bucket `(data, s)` (sequentially the slot cannot have changed since the
load, so the CAS test compares the slot against the value just loaded). -/
def setLoop [DecidableEq α] : Nat → ManyToOne α → α → Option (ManyToOne α)
  | 0, _, _ => none
  | fuel + 1, d, data =>
    let s := (d.writeIndex + 1) % U64
    let d1 : ManyToOne α := { d with writeIndex := s }
    if collides d1.buffer s then
      setLoop fuel d1 data
    else
      let idx := s % d1.buffer.length
      let old := d1.buffer.getD idx none
      if d1.buffer.getD idx none = old then
        some { d1 with buffer := d1.buffer.set idx (some ⟨data, s⟩) }
      else
        setLoop fuel d1 data

/-- The writer entry point `Set(data GenericDataType)`.  On a zero-length buffer the index
computation `writeIndex % uint64(len(d.buffer))` panics (`none`);
otherwise run the retry loop.  `2^64` units of fuel are enough for any
state: after at most `2^64` increments the claimed sequence number has
visited every residue, including one at which the collision test is
necessarily false. -/
def Set [DecidableEq α] (d : ManyToOne α) (data : α) : Option (ManyToOne α) :=
  if d.buffer.length = 0 then none else setLoop U64 d data

/-- Result of one `TryNext` call: the returned `(data, ok)` pair, the
post state, and the arguments passed to `alerter.Alert` during the call. -/
structure ReadResult (α : Type) where
  data : Option α
  ok : Bool
  state : ManyToOne α
  alerts : List Int
deriving DecidableEq, Repr

/-- The reader entry point `TryNext()`.  Load the slot at `readIndex % len(buffer)` (`none` buffer
length panics); an empty slot returns `(nil, false)` without moving the
cursor.  If the loaded `seq` exceeds `readIndex` the writer has lapped the
reader: alert `int((writeIndex+1) - readIndex - len)` drops, fast-forward
`readIndex` to `(writeIndex+1) - len`, and reload.  Then
`CompareAndSwapPointer(&buffer[idx], nil, result)` (which can only act on
an empty slot), increment `readIndex`, and return `(result.data, true)` —
dereferencing a `nil` reloaded `result` would panic (`none`). -/
def TryNext [DecidableEq α] (d : ManyToOne α) : Option (ReadResult α) :=
  if d.buffer.length = 0 then none else
  let idx := d.readIndex % d.buffer.length
  match d.buffer.getD idx none with
  | none => some { data := none, ok := false, state := d, alerts := [] }
  | some b =>
    if b.seq > d.readIndex then
      let dropped := sub64 (sub64 ((d.writeIndex + 1) % U64) d.readIndex) d.buffer.length
      let newRead := sub64 ((d.writeIndex + 1) % U64) d.buffer.length
      let idx2 := newRead % d.buffer.length
      let result := d.buffer.getD idx2 none
      let buf2 := if d.buffer.getD idx2 none = none then d.buffer.set idx2 result else d.buffer
      match result with
      | none => none
      | some b2 =>
        some { data := some b2.data, ok := true,
               state := { writeIndex := d.writeIndex, buffer := buf2,
                          readIndex := (newRead + 1) % U64 },
               alerts := [int64ofUInt64 dropped] }
    else
      let buf2 := if d.buffer.getD idx none = none then d.buffer.set idx (some b) else d.buffer
      some { data := some b.data, ok := true,
             state := { writeIndex := d.writeIndex, buffer := buf2,
                        readIndex := (d.readIndex + 1) % U64 },
             alerts := [] }

/-- Run a list of `Set`s in order (producers, sequentialised). -/
def setMany [DecidableEq α] (d : ManyToOne α) (vs : List α) : Option (ManyToOne α) :=
  vs.foldlM Set d

/-- Run `n` consecutive `TryNext` calls, collecting the returned
`(data, ok)` pairs and all alert invocations. -/
def readSeq [DecidableEq α] :
    Nat → ManyToOne α → Option (List (Option α × Bool) × List Int × ManyToOne α)
  | 0, d => some ([], [], d)
  | n + 1, d =>
    match TryNext d with
    | none => none
    | some r =>
      match readSeq n r.state with
      | none => none
      | some (ds, as, d') => some ((r.data, r.ok) :: ds, r.alerts ++ as, d')

end ManyToOne

/-! ## Arithmetic helpers -/

theorem U64_pos : 0 < U64 := by norm_num [U64]

theorem sub64_eq {a b : Nat} (hba : b ≤ a) (ha : a < U64) : sub64 a b = a - b := by
  have hb : b % U64 = b := Nat.mod_eq_of_lt (lt_of_le_of_lt hba ha)
  simp only [sub64, hb, U64] at *
  omega

/-- Two naturals with the same residue mod `N` that are strictly ordered
are at least `N` apart. -/
theorem add_le_of_mod_eq {a b N : Nat} (h : a % N = b % N) (hab : a < b) : a + N ≤ b := by
  have hdvd : N ∣ b - a := (Nat.modEq_iff_dvd' (le_of_lt hab)).mp h
  have := Nat.le_of_dvd (by omega) hdvd
  omega

/-! ## The most recent write to a slot

`lastIdx m N i` is the sequence number of the most recent of the first `m`
writes whose sequence number is congruent to `i` modulo the capacity `N`
(meaningful when `i < m`). -/

/-- Sequence number of the last of `m` writes landing on residue `i`. -/
def lastIdx (m N i : Nat) : Nat := m - 1 - ((m - 1 - i) % N)

theorem lastIdx_lt {m N i : Nat} (hi : i < m) : lastIdx m N i < m := by
  unfold lastIdx; omega

theorem lastIdx_mod {m N i : Nat} (hN : 0 < N) (hi : i < m) :
    lastIdx m N i % N = i % N := by
  have hdm := Nat.div_add_mod (m - 1 - i) N
  have hlt : (m - 1 - i) % N < N := Nat.mod_lt _ hN
  have hle : (m - 1 - i) % N ≤ m - 1 - i := Nat.mod_le _ _
  have h1 : lastIdx m N i = i + N * ((m - 1 - i) / N) := by unfold lastIdx; omega
  rw [h1, Nat.add_mul_mod_self_left]

theorem lastIdx_window {m N i : Nat} (hN : 0 < N) (hi : i < m) :
    m ≤ lastIdx m N i + N := by
  have hlt : (m - 1 - i) % N < N := Nat.mod_lt _ hN
  have hle : (m - 1 - i) % N ≤ m - 1 - i := Nat.mod_le _ _
  unfold lastIdx; omega

/-- Every write with residue `i` among the first `m` is no later than
`lastIdx m N i`. -/
theorem le_lastIdx {m N i j : Nat} (hN : 0 < N) (hi : i < m)
    (hj1 : j % N = i % N) (hj2 : j < m) : j ≤ lastIdx m N i := by
  by_contra hgt
  push_neg at hgt
  have h1 := add_le_of_mod_eq ((lastIdx_mod hN hi).trans hj1.symm) hgt
  have h2 := lastIdx_window hN hi
  omega

/-- Uniqueness: `lastIdx m N i` is the unique number with residue `i` inside the final
window `[m - N, m)`. -/
theorem lastIdx_unique {m N i j : Nat} (hN : 0 < N) (hi : i < m)
    (hj1 : j % N = i % N) (hj2 : j < m) (hj3 : m ≤ j + N) : j = lastIdx m N i := by
  have hle := le_lastIdx hN hi hj1 hj2
  rcases Nat.lt_or_ge j (lastIdx m N i) with hlt | hge
  · have := add_le_of_mod_eq (hj1.trans (lastIdx_mod hN hi).symm) hlt
    have := lastIdx_lt (N := N) hi
    omega
  · omega

theorem lastIdx_of_le {k N i : Nat} (hN : 0 < N) (hi : i < k) (hk : k ≤ i + N) :
    lastIdx k N i = i :=
  (lastIdx_unique hN hi rfl hi hk).symm

theorem lastIdx_self {k N : Nat} (hN : 0 < N) (hk : N ≤ k) :
    lastIdx k N (k % N) = k - N := by
  have hmm : (k % N) % N = k % N := Nat.mod_eq_of_lt (Nat.mod_lt _ hN)
  have hsub : (k - N) % N = k % N := by
    have h : k - N + N = k := by omega
    calc (k - N) % N = (k - N + N) % N := (Nat.add_mod_right _ _).symm
    _ = k % N := by rw [h]
  refine (lastIdx_unique hN ?_ ?_ ?_ ?_).symm
  · exact lt_of_lt_of_le (Nat.mod_lt _ hN) hk
  · rw [hsub, hmm]
  · omega
  · omega


/-! ## Closed form of the buffer after a run of writes -/

namespace ManyToOne

variable {α : Type}

/-- The buffer a fresh diode of capacity `N` holds after the writes `vs`
(write `j`, counting from 0, stores `vs[j]` with sequence number `j`):
slot `i` holds the most recent write whose sequence is `≡ i (mod N)`, and
is empty iff no write has that residue (for `i < N` that means `i ≥ |vs|`). -/
def modelBuffer (vs : List α) (N : Nat) : List (Option (Bucket α)) :=
  (List.range N).map (fun i =>
    if i < vs.length then
      (vs[lastIdx vs.length N i]?).map (fun v => ⟨v, lastIdx vs.length N i⟩)
    else none)

theorem modelBuffer_length (vs : List α) (N : Nat) : (modelBuffer vs N).length = N := by
  simp [modelBuffer]

theorem modelBuffer_nil (N : Nat) : modelBuffer ([] : List α) N = List.replicate N none := by
  simp [modelBuffer]

theorem modelBuffer_getElem? {N i : Nat} (vs : List α) (hi : i < N) :
    (modelBuffer vs N)[i]? =
      some (if i < vs.length then
        (vs[lastIdx vs.length N i]?).map (fun v => ⟨v, lastIdx vs.length N i⟩)
      else none) := by
  rw [modelBuffer, List.getElem?_map, List.getElem?_range hi, Option.map_some']

theorem modelBuffer_getD {N i : Nat} (vs : List α) (hi : i < N) :
    (modelBuffer vs N).getD i none =
      if i < vs.length then
        (vs[lastIdx vs.length N i]?).map (fun v => ⟨v, lastIdx vs.length N i⟩)
      else none := by
  rw [List.getD_eq_getElem?_getD, modelBuffer_getElem? vs hi, Option.getD_some]

/-- Appending one write overwrites exactly the slot `|vs| % N`. -/
theorem modelBuffer_snoc {N : Nat} (hN : 0 < N) (vs : List α) (v : α) :
    modelBuffer (vs ++ [v]) N =
      (modelBuffer vs N).set (vs.length % N) (some ⟨v, vs.length⟩) := by
  have hmodN : vs.length % N < N := Nat.mod_lt _ hN
  have hmodle : vs.length % N ≤ vs.length := Nat.mod_le _ _
  apply List.ext_getElem?
  intro i
  by_cases hi : i < N
  case neg =>
    rw [List.getElem?_eq_none (by rw [modelBuffer_length]; omega),
      List.getElem?_eq_none (by rw [List.length_set, modelBuffer_length]; omega)]
  case pos =>
  have hset : ((modelBuffer vs N).set (vs.length % N) (some ⟨v, vs.length⟩))[i]? =
      if vs.length % N = i then some (some ⟨v, vs.length⟩) else (modelBuffer vs N)[i]? := by
    rw [List.getElem?_set]
    by_cases hik : vs.length % N = i
    · rw [if_pos hik, if_pos hik, if_pos (by rw [modelBuffer_length]; omega)]
    · rw [if_neg hik, if_neg hik]
  rw [hset, modelBuffer_getElem? _ hi]
  by_cases hik : vs.length % N = i
  · rw [if_pos hik]
    have hcond : i < (vs ++ [v]).length := by simp; omega
    rw [if_pos hcond]
    have hlast : lastIdx (vs ++ [v]).length N i = vs.length := by
      simp only [List.length_append, List.length_singleton]
      refine (lastIdx_unique hN (by omega) ?_ (by omega) (by omega)).symm
      rw [Nat.mod_eq_of_lt hi]
      exact hik
    rw [hlast, List.getElem?_concat_length]
    rfl
  · rw [if_neg hik, modelBuffer_getElem? _ hi]
    by_cases hocc : i < vs.length
    · have hlt1 : i < (vs ++ [v]).length := by simp; omega
      rw [if_pos hlt1, if_pos hocc]
      have heq : lastIdx (vs ++ [v]).length N i = lastIdx vs.length N i := by
        simp only [List.length_append, List.length_singleton]
        have hwin := lastIdx_window hN hocc
        have hne : vs.length ≠ lastIdx vs.length N i + N := by
          intro hcon
          apply hik
          rw [hcon, Nat.add_mod_right, lastIdx_mod hN hocc, Nat.mod_eq_of_lt hi]
        have hj2 := lastIdx_lt (N := N) hocc
        exact (lastIdx_unique hN (by omega) (lastIdx_mod hN hocc) (by omega) (by omega)).symm
      rw [heq, List.getElem?_append_left (lastIdx_lt hocc)]
    · have hlt1 : ¬ i < (vs ++ [v]).length := by
        simp only [List.length_append, List.length_singleton]
        intro hcon
        have hieq : i = vs.length := by omega
        exact hik (by rw [← hieq, Nat.mod_eq_of_lt hi])
      rw [if_neg hlt1, if_neg hocc]

end ManyToOne

/-! ## One iteration of the write loop -/

namespace ManyToOne

variable {α : Type} [DecidableEq α]

/-- A non-colliding iteration claims the slot on the first try: the
sequential CAS cannot fail. -/
theorem setLoop_eq_done {d : ManyToOne α} {v : α} {fuel : Nat}
    (h : collides d.buffer ((d.writeIndex + 1) % U64) = false) :
    setLoop (fuel + 1) d v =
      some ⟨(d.writeIndex + 1) % U64,
            d.buffer.set ((d.writeIndex + 1) % U64 % d.buffer.length)
              (some ⟨v, (d.writeIndex + 1) % U64⟩),
            d.readIndex⟩ := by
  rw [setLoop]
  simp only [h, Bool.false_eq_true, if_false, if_pos rfl, if_true]

/-- A colliding iteration consumes its sequence number and retries. -/
theorem setLoop_eq_retry {d : ManyToOne α} {v : α} {fuel : Nat}
    (h : collides d.buffer ((d.writeIndex + 1) % U64) = true) :
    setLoop (fuel + 1) d v =
      setLoop fuel ⟨(d.writeIndex + 1) % U64, d.buffer, d.readIndex⟩ v := by
  rw [setLoop]
  simp only [h, if_true]

/-- After the writes `vs`, the next claimed sequence number `|vs|` never
collides: the slot it lands on is empty (fewer than `N` writes) or holds
exactly the sequence `|vs| - N`, which fails the strict in-range test. -/
theorem collides_modelBuffer {N : Nat} (hN : 0 < N) (vs : List α) (hk : vs.length < U64) :
    collides (modelBuffer vs N) vs.length = false := by
  rw [collides, modelBuffer_length]
  have hmodN : vs.length % N < N := Nat.mod_lt _ hN
  rw [modelBuffer_getD _ hmodN]
  by_cases hcap : vs.length < N
  · rw [Nat.mod_eq_of_lt hcap, if_neg (lt_irrefl _)]
  · have hge : N ≤ vs.length := Nat.le_of_not_lt hcap
    have hocc : vs.length % N < vs.length := lt_of_lt_of_le hmodN hge
    rw [if_pos hocc, lastIdx_self hN hge,
      List.getElem?_eq_getElem (by omega : vs.length - N < vs.length)]
    simp only [Option.map_some']
    rw [sub64_eq hge hk]
    simp

end ManyToOne

/-! ## Closed form of a run of writes -/

namespace ManyToOne

variable {α : Type} [DecidableEq α]

/-- Applying `Set` to a state whose write cursor and buffer are those left
by the writes `vs` (read cursor arbitrary) succeeds on the first loop
iteration, claims sequence number `|vs|`, and stores the new value in slot
`|vs| % N`. -/
theorem Set_model {N : Nat} (hN : 0 < N) {vs : List α} (hk : vs.length + 1 < U64)
    {d : ManyToOne α} (hw : d.writeIndex = (U64 - 1 + vs.length) % U64)
    (hb : d.buffer = modelBuffer vs N) (v : α) :
    Set d v = some ⟨vs.length, modelBuffer (vs ++ [v]) N, d.readIndex⟩ := by
  have hlen : d.buffer.length = N := by rw [hb, modelBuffer_length]
  have hs : (d.writeIndex + 1) % U64 = vs.length := by
    rw [hw]
    unfold U64 at hk ⊢
    omega
  rw [Set, if_neg (by omega)]
  rw [show (U64 : Nat) = (U64 - 1) + 1 from by unfold U64; omega]
  rw [setLoop_eq_done (by rw [hs, hb]; exact collides_modelBuffer hN vs (by omega))]
  rw [hs, hb, modelBuffer_length, modelBuffer_snoc hN vs v]

/-- State after `vs` writes on a fresh diode of capacity `N`: write cursor
`|vs| - 1` (wrapped), buffer in closed form, read cursor untouched. -/
theorem setMany_model {N : Nat} (hN : 0 < N) (vs : List α) (hk : vs.length < U64) :
    setMany (fresh α N) vs = some ⟨(U64 - 1 + vs.length) % U64, modelBuffer vs N, 0⟩ := by
  induction vs using List.reverseRecOn with
  | nil =>
    simp only [setMany, List.foldlM_nil, List.length_nil, Nat.add_zero]
    rw [show (U64 - 1) % U64 = U64 - 1 from by unfold U64; omega, modelBuffer_nil, fresh]
    rfl
  | append_singleton vs v ih =>
    have hk1 : vs.length + 1 < U64 := by simpa using hk
    have hk' : vs.length < U64 := by omega
    rw [setMany, List.foldlM_append,
      show List.foldlM Set (fresh α N) vs = setMany (fresh α N) vs from rfl, ih hk']
    have hstep := Set_model hN hk1
      (d := ⟨(U64 - 1 + vs.length) % U64, modelBuffer vs N, 0⟩) rfl rfl v
    simp only [Option.bind_eq_bind, Option.some_bind, List.foldlM_cons, List.foldlM_nil]
    rw [hstep]
    have hw2 : (U64 - 1 + (vs ++ [v]).length) % U64 = vs.length := by
      simp only [List.length_append, List.length_singleton]
      unfold U64 at hk1 ⊢
      omega
    rw [hw2]
    rfl

end ManyToOne

/-! ## Case analysis of `TryNext` -/

namespace ManyToOne

variable {α : Type} [DecidableEq α] {d : ManyToOne α}

/-- Reading an empty slot: `(nil, false)` and the whole state untouched. -/
theorem TryNext_empty (hlen : ¬ d.buffer.length = 0)
    (h : d.buffer.getD (d.readIndex % d.buffer.length) none = none) :
    TryNext d = some ⟨none, false, d, []⟩ := by
  unfold TryNext
  rw [if_neg hlen]
  simp only [h]

/-- A regular read (`seq ≤ readIndex`): deliver the slot's value, advance
the cursor, no alert.  The CAS leaves the occupied slot as it is. -/
theorem TryNext_normal {b : Bucket α} (hlen : ¬ d.buffer.length = 0)
    (h : d.buffer.getD (d.readIndex % d.buffer.length) none = some b)
    (hseq : ¬ b.seq > d.readIndex) :
    TryNext d = some ⟨some b.data, true,
      ⟨d.writeIndex, d.buffer, (d.readIndex + 1) % U64⟩, []⟩ := by
  unfold TryNext
  rw [if_neg hlen]
  simp only [h, if_neg hseq, reduceCtorEq, if_false]

/-- A lapped read: alert the drop count, fast-forward, deliver the
reloaded slot's value.  The CAS leaves the occupied slot as it is. -/
theorem TryNext_catchup {b b2 : Bucket α} (hlen : ¬ d.buffer.length = 0)
    (h : d.buffer.getD (d.readIndex % d.buffer.length) none = some b)
    (hseq : b.seq > d.readIndex)
    (h2 : d.buffer.getD
      (sub64 ((d.writeIndex + 1) % U64) d.buffer.length % d.buffer.length) none = some b2) :
    TryNext d = some ⟨some b2.data, true,
      ⟨d.writeIndex, d.buffer, (sub64 ((d.writeIndex + 1) % U64) d.buffer.length + 1) % U64⟩,
      [int64ofUInt64 (sub64 (sub64 ((d.writeIndex + 1) % U64) d.readIndex) d.buffer.length)]⟩ := by
  unfold TryNext
  rw [if_neg hlen]
  simp only [h, if_pos hseq, h2, reduceCtorEq, if_false]

/-- Frame property of a completed `TryNext`: the buffer and the write
cursor are untouched, and the read cursor is either untouched or reduced
modulo `2^64`. -/
theorem TryNext_frame {r : ReadResult α} (h : TryNext d = some r) :
    r.state.buffer = d.buffer ∧ r.state.writeIndex = d.writeIndex ∧
      (r.state.readIndex = d.readIndex ∨ r.state.readIndex < U64) := by
  have hU : 0 < U64 := U64_pos
  unfold TryNext at h
  by_cases hlen : d.buffer.length = 0
  · rw [if_pos hlen] at h
    exact absurd h (by simp)
  · rw [if_neg hlen] at h
    rcases hslot : d.buffer.getD (d.readIndex % d.buffer.length) none with _ | b
    · simp only [hslot] at h
      obtain rfl : (⟨none, false, d, []⟩ : ReadResult α) = r := Option.some_inj.mp h
      exact ⟨rfl, rfl, Or.inl rfl⟩
    · simp only [hslot] at h
      by_cases hseq : b.seq > d.readIndex
      · rw [if_pos hseq] at h
        rcases h2 : d.buffer.getD
            (sub64 ((d.writeIndex + 1) % U64) d.buffer.length % d.buffer.length) none
          with _ | b2
        · simp only [h2] at h
          exact Option.noConfusion h
        · simp only [h2, reduceCtorEq, if_false] at h
          obtain rfl := Option.some_inj.mp h
          exact ⟨rfl, rfl, Or.inr (Nat.mod_lt _ hU)⟩
      · rw [if_neg hseq] at h
        simp only [reduceCtorEq, if_false] at h
        obtain rfl := Option.some_inj.mp h
        exact ⟨rfl, rfl, Or.inr (Nat.mod_lt _ hU)⟩

end ManyToOne

/-! ## Reachable states -/

namespace ManyToOne

variable {α : Type} [DecidableEq α]

/-- States reachable from a fresh diode of capacity `N` by completed
(non-panicking) `Set` and `TryNext` calls, sequentially; `vs` records the
values written so far, in order. -/
inductive Reach (N : Nat) : ManyToOne α → List α → Prop
  | init : Reach N (fresh α N) []
  | set {d : ManyToOne α} {vs : List α} {v : α} {d' : ManyToOne α} :
      Reach N d vs → Set d v = some d' → Reach N d' (vs ++ [v])
  | read {d : ManyToOne α} {vs : List α} {r : ReadResult α} :
      Reach N d vs → TryNext d = some r → Reach N r.state vs

/-- Any completed run of the write loop leaves the read cursor alone,
claims one reduced sequence number `s`, and installs `(v, s)` into the
slot `s % N`. -/
theorem setLoop_shape : ∀ (fuel : Nat) (d : ManyToOne α) (v : α) (d' : ManyToOne α),
    setLoop fuel d v = some d' →
    d'.readIndex = d.readIndex ∧ ∃ s, s < U64 ∧ d'.writeIndex = s ∧
      d'.buffer = d.buffer.set (s % d.buffer.length) (some ⟨v, s⟩) := by
  intro fuel
  induction fuel with
  | zero => intro d v d' h; exact Option.noConfusion h
  | succ n ih =>
    intro d v d' h
    by_cases hc : collides d.buffer ((d.writeIndex + 1) % U64) = true
    · rw [setLoop_eq_retry hc] at h
      obtain ⟨hre, s, hsU, hw, hb⟩ := ih _ v d' h
      exact ⟨hre, s, hsU, hw, hb⟩
    · have hc' : collides d.buffer ((d.writeIndex + 1) % U64) = false :=
        Bool.eq_false_iff.mpr hc
      rw [setLoop_eq_done hc'] at h
      obtain rfl := Option.some_inj.mp h
      exact ⟨rfl, (d.writeIndex + 1) % U64, Nat.mod_lt _ U64_pos, rfl, rfl⟩

/-- Reachable states keep the construction-time capacity and store only
reduced (`< 2^64`) sequence numbers, whether or not the write cursor has
wrapped. -/
theorem reach_buffer_wf {N : Nat} {d : ManyToOne α} {vs : List α} (h : Reach N d vs) :
    d.buffer.length = N ∧
      ∀ ob ∈ d.buffer, ∀ b : Bucket α, ob = some b → b.seq < U64 := by
  induction h with
  | init =>
    refine ⟨by simp [fresh], ?_⟩
    intro ob hmem b hob
    rw [List.eq_of_mem_replicate hmem] at hob
    exact Option.noConfusion hob
  | @set d0 vs0 v0 d0' hreach hset ih =>
    obtain ⟨hlen, hwf⟩ := ih
    rw [Set] at hset
    by_cases h0 : d0.buffer.length = 0
    · rw [if_pos h0] at hset
      exact Option.noConfusion hset
    · rw [if_neg h0] at hset
      obtain ⟨hre, s, hsU, hw, hb⟩ := setLoop_shape _ _ _ _ hset
      refine ⟨by rw [hb, List.length_set, hlen], ?_⟩
      intro ob hmem b hob
      rw [hb] at hmem
      rcases List.mem_or_eq_of_mem_set hmem with hin | heq
      · exact hwf _ hin b hob
      · rw [heq] at hob
        obtain rfl := (Option.some_inj.mp hob).symm
        exact hsU
  | read hreach hread ih =>
    obtain ⟨hfb, _, _⟩ := TryNext_frame hread
    rw [hfb]
    exact ih

/-- Invariant of reachable states, as long as the write cursor has not
wrapped: the cursor and the buffer are exactly those left by the recorded
writes, and the read cursor is reduced. -/
theorem reach_inv {N : Nat} (hN : 0 < N) {d : ManyToOne α} {vs : List α}
    (h : Reach N d vs) :
    vs.length < U64 →
      d.writeIndex = (U64 - 1 + vs.length) % U64 ∧ d.buffer = modelBuffer vs N ∧
        d.readIndex < U64 := by
  induction h with
  | init =>
    intro _
    have h1 : (U64 - 1 + ([] : List α).length) % U64 = U64 - 1 := by
      simp only [List.length_nil, Nat.add_zero]
      unfold U64
      omega
    exact ⟨by rw [h1]; rfl, (modelBuffer_nil N).symm, U64_pos⟩
  | @set d0 vs0 v0 d0' hreach hset ih =>
    intro hk
    have hk1 : vs0.length + 1 < U64 := by simpa using hk
    obtain ⟨hw, hb, hr⟩ := ih (by omega)
    have hstep := Set_model hN hk1 hw hb v0
    rw [hstep] at hset
    obtain rfl := (Option.some_inj.mp hset).symm
    refine ⟨?_, rfl, hr⟩
    have harith : vs0.length = (U64 - 1 + (vs0.length + 1)) % U64 := by
      unfold U64 at hk1 ⊢
      omega
    simpa using harith
  | read hreach hread ih =>
    intro hk
    obtain ⟨hw, hb, hr⟩ := ih hk
    obtain ⟨hfb, hfw, hfr⟩ := TryNext_frame hread
    refine ⟨by rw [hfw, hw], by rw [hfb, hb], ?_⟩
    rcases hfr with h1 | h1
    · rw [h1]; exact hr
    · exact h1

end ManyToOne

/-! ## The write loop always terminates -/

namespace ManyToOne

variable {α : Type} [DecidableEq α]

/-- If some sequence number within the fuel budget passes the collision
test, the loop completes. -/
theorem setLoop_isSome {v : α} : ∀ (fuel : Nat) (d : ManyToOne α),
    (∃ j, j < fuel ∧ collides d.buffer ((d.writeIndex + 1 + j) % U64) = false) →
    (setLoop fuel d v).isSome := by
  intro fuel
  induction fuel with
  | zero =>
    intro d h
    obtain ⟨j, hj, _⟩ := h
    omega
  | succ n ih =>
    intro d h
    obtain ⟨j, hj, hcol⟩ := h
    by_cases hc : collides d.buffer ((d.writeIndex + 1) % U64) = true
    · rw [setLoop_eq_retry hc]
      have hj0 : j ≠ 0 := by
        intro h0
        rw [h0, Nat.add_zero] at hcol
        rw [hcol] at hc
        exact Bool.noConfusion hc
      apply ih
      refine ⟨j - 1, by omega, ?_⟩
      have heq : ((d.writeIndex + 1) % U64 + 1 + (j - 1)) % U64
          = (d.writeIndex + 1 + j) % U64 := by
        calc ((d.writeIndex + 1) % U64 + 1 + (j - 1)) % U64
            = ((d.writeIndex + 1) % U64 + (1 + (j - 1))) % U64 := by rw [Nat.add_assoc]
          _ = (d.writeIndex + 1 + (1 + (j - 1))) % U64 := Nat.mod_add_mod _ _ _
          _ = (d.writeIndex + 1 + j) % U64 := by congr 1; omega
      rw [heq]
      exact hcol
    · have hc' : collides d.buffer ((d.writeIndex + 1) % U64) = false :=
        Bool.eq_false_iff.mpr hc
      rw [setLoop_eq_done hc']
      rfl

/-- Totality: `Set` completes on every state with a nonempty, well-formed buffer
(every stored sequence number reduced mod `2^64`), whatever the cursor
values: the sequence number `N - 1` always fails the collision test, and
the loop reaches it within `2^64` retries. -/
theorem Set_total {d : ManyToOne α} (hlen : 0 < d.buffer.length)
    (hlenU : d.buffer.length < U64)
    (hwf : ∀ ob ∈ d.buffer, ∀ b : Bucket α, ob = some b → b.seq < U64) (v : α) :
    (Set d v).isSome := by
  rw [Set, if_neg (by omega)]
  apply setLoop_isSome
  refine ⟨(d.buffer.length - 1 + U64 - (d.writeIndex + 1) % U64) % U64,
    Nat.mod_lt _ U64_pos, ?_⟩
  have htarget : (d.writeIndex + 1
      + (d.buffer.length - 1 + U64 - (d.writeIndex + 1) % U64) % U64) % U64
      = d.buffer.length - 1 := by
    unfold U64 at hlenU ⊢
    omega
  rw [htarget, collides,
    Nat.mod_eq_of_lt (show d.buffer.length - 1 < d.buffer.length from by omega)]
  rcases hslot : d.buffer.getD (d.buffer.length - 1) none with _ | b
  · rfl
  · have hget : d.buffer.getD (d.buffer.length - 1) none = d.buffer[d.buffer.length - 1] :=
      List.getD_eq_getElem _ _ (by omega)
    have hmem : some b ∈ d.buffer := by
      rw [← hslot, hget]
      exact List.getElem_mem _
    have hseq : b.seq < U64 := hwf _ hmem b rfl
    have hsub : sub64 (d.buffer.length - 1) d.buffer.length = U64 - 1 := by
      rw [sub64, Nat.mod_eq_of_lt hlenU]
      unfold U64
      omega
    rw [hsub]
    simp only [gt_iff_lt, decide_eq_false_iff_not, not_lt]
    omega

end ManyToOne

/-! ## Reads after an under-capacity run of writes -/

namespace ManyToOne

variable {α : Type} [DecidableEq α]

/-- With `|vs| ≤ N` writes in the buffer and the read cursor at `j`, the
remaining `|vs| - j` reads deliver `vs[j], vs[j+1], …` in order, with no
alert, leaving the cursor at `|vs|`. -/
theorem readSeq_fifo {N : Nat} (hN : 0 < N) (hNu : N < U64) (vs : List α)
    (hcap : vs.length ≤ N) (w : Nat) : ∀ (n j : Nat), j + n = vs.length →
    readSeq n ⟨w, modelBuffer vs N, j⟩ =
      some ((vs.drop j).map (fun v => (some v, true)), [],
        ⟨w, modelBuffer vs N, vs.length⟩) := by
  intro n
  induction n with
  | zero =>
    intro j hj
    rw [readSeq, show j = vs.length from by omega, List.drop_length]
    rfl
  | succ m ih =>
    intro j hj
    have hjlt : j < vs.length := by omega
    have hjN : j < N := by omega
    have hidx : j % N = j := Nat.mod_eq_of_lt hjN
    have hL : lastIdx vs.length N j = j := lastIdx_of_le hN hjlt (by omega)
    have hlenN : (modelBuffer vs N).length = N := modelBuffer_length vs N
    have hslot : (modelBuffer vs N).getD (j % (modelBuffer vs N).length) none
        = some ⟨vs[j], j⟩ := by
      rw [hlenN, hidx]
      have hmb := modelBuffer_getD (i := j) vs hjN
      rw [if_pos hjlt, hL, List.getElem?_eq_getElem hjlt] at hmb
      exact hmb
    have hread := TryNext_normal (d := ⟨w, modelBuffer vs N, j⟩)
      (b := ⟨vs[j], j⟩) (by rw [hlenN]; omega) hslot (by simp)
    rw [readSeq, hread]
    have hj1 : (j + 1) % U64 = j + 1 := Nat.mod_eq_of_lt (by omega)
    simp only [hj1]
    rw [ih (j + 1) (by omega)]
    rw [List.drop_eq_getElem_cons hjlt]
    rfl

end ManyToOne

/-! ## The claims -/

open ManyToOne

/-- C1: Overrun accounting.  For capacity `N ≥ 1`, after `m > N` writes
with no interleaved reads, a single `TryNext` returns `ok = true` carrying
the value written with sequence number `m - N`, and the alerter is invoked
exactly once during that read, with `dropped = m - N`.  (The run is kept
below the `uint64` wrap: `m ≤ 2^63`.) -/
theorem claim_c1 (α : Type) [DecidableEq α] (N : Nat) (vs : List α)
    (hN : 0 < N) (hm : N < vs.length) (hub : vs.length ≤ 2 ^ 63) :
    ∃ d r, setMany (fresh α N) vs = some d ∧ TryNext d = some r ∧
      r.ok = true ∧ r.data = vs[vs.length - N]? ∧
      r.alerts = [((vs.length - N : Nat) : Int)] := by
  have hku : vs.length < U64 := by unfold U64 at *; omega
  obtain hsm := setMany_model (α := α) hN vs hku
  have hs : ((U64 - 1 + vs.length) % U64 + 1) % U64 = vs.length := by
    unfold U64 at hku ⊢
    omega
  have hlenN : (modelBuffer vs N).length = N := modelBuffer_length vs N
  have h0k : 0 < vs.length := by omega
  have hL0 : lastIdx vs.length N 0 < vs.length := lastIdx_lt h0k
  have hmN : vs.length - N < vs.length := by omega
  have hslot0 : (modelBuffer vs N).getD 0 none
      = some ⟨vs[lastIdx vs.length N 0], lastIdx vs.length N 0⟩ := by
    have hmb := modelBuffer_getD (i := 0) vs hN
    rw [if_pos h0k, List.getElem?_eq_getElem (lastIdx_lt h0k)] at hmb
    exact hmb
  have hwin0 := lastIdx_window (m := vs.length) (i := 0) hN h0k
  have hseq0 : (⟨vs[lastIdx vs.length N 0], lastIdx vs.length N 0⟩ : Bucket α).seq > 0 := by
    show 0 < lastIdx vs.length N 0
    omega
  have hLL : lastIdx vs.length N ((vs.length - N) % N) = vs.length - N := by
    refine (lastIdx_unique hN ?_ ?_ ?_ ?_).symm
    · exact lt_of_lt_of_le (Nat.mod_lt _ hN) (by omega)
    · exact (Nat.mod_mod_of_dvd _ (dvd_refl N)).symm
    · omega
    · omega
  have hslot2 : (modelBuffer vs N).getD ((vs.length - N) % N) none
      = some ⟨vs[vs.length - N], vs.length - N⟩ := by
    have hiN : (vs.length - N) % N < N := Nat.mod_lt _ hN
    have hmb := modelBuffer_getD (i := (vs.length - N) % N) vs hiN
    rw [if_pos (lt_of_lt_of_le hiN (by omega)), hLL,
      List.getElem?_eq_getElem (by omega)] at hmb
    exact hmb
  have hread := @TryNext_catchup α _
    ⟨(U64 - 1 + vs.length) % U64, modelBuffer vs N, 0⟩
    ⟨vs[lastIdx vs.length N 0], lastIdx vs.length N 0⟩
    ⟨vs[vs.length - N], vs.length - N⟩
    (by rw [hlenN]; omega)
    (by
      show (modelBuffer vs N).getD (0 % (modelBuffer vs N).length) none = _
      rw [Nat.zero_mod]
      exact hslot0)
    hseq0
    (by
      show (modelBuffer vs N).getD
        (sub64 (((U64 - 1 + vs.length) % U64 + 1) % U64) (modelBuffer vs N).length
          % (modelBuffer vs N).length) none = _
      rw [hlenN, hs, sub64_eq (by omega) hku]
      exact hslot2)
  refine ⟨_, _, hsm, hread, rfl, ?_, ?_⟩
  · exact (List.getElem?_eq_getElem (by omega)).symm
  · show [int64ofUInt64 (sub64 (sub64 (((U64 - 1 + vs.length) % U64 + 1) % U64) 0)
      (modelBuffer vs N).length)] = _
    rw [hlenN, hs, sub64_eq (Nat.zero_le _) hku, Nat.sub_zero, sub64_eq (by omega) hku,
      int64ofUInt64, if_pos (by omega)]

/-- C2: No re-delivery after exhaustion — REFUTED by the code.  Concrete
run: capacity 4, six writes tagged 0..5, then five reads.  The first four
reads deliver 2, 3, 4, 5 (one alert of 2 on the first), but the fifth
read — which the claim says must return `found = false` — again delivers
the already-consumed value 2 with `ok = true`: at `readIndex = 6` the slot
`6 % 4 = 2` still holds `(seq 2, value 2)` (`TryNext` never clears slots),
the stale-value guard `seq < readIndex` is absent, and the cursor
advances to 7.  The value 2 is delivered twice, so the observed sequence
numbers are not strictly increasing either. -/
theorem claim_c2_bug :
    (setMany (fresh Nat 4) [0, 1, 2, 3, 4, 5]).bind (fun d => readSeq 5 d)
      = some ([(some 2, true), (some 3, true), (some 4, true), (some 5, true),
          (some 2, true)],
          [(2 : Int)],
          ⟨5, [some ⟨4, 4⟩, some ⟨5, 5⟩, some ⟨2, 2⟩, some ⟨3, 3⟩], 7⟩) := by
  decide

/-- C3: FIFO under capacity.  For capacity `N` (reduced, `N < 2^64`) and
`k ≤ N` writes with no interleaved reads, the next `k` `TryNext` calls
return exactly the written values in write order, each with `ok = true`,
and the alerter is never invoked. -/
theorem claim_c3 (α : Type) [DecidableEq α] (N : Nat) (vs : List α)
    (hN : 0 < N) (hNu : N < U64) (hcap : vs.length ≤ N) :
    ∃ d d', setMany (fresh α N) vs = some d ∧
      readSeq vs.length d = some (vs.map (fun v => (some v, true)), [], d') := by
  have hku : vs.length < U64 := by omega
  obtain hsm := setMany_model hN vs hku
  refine ⟨_, ⟨(U64 - 1 + vs.length) % U64, modelBuffer vs N, vs.length⟩, hsm, ?_⟩
  have hfifo := readSeq_fifo hN hNu vs hcap ((U64 - 1 + vs.length) % U64)
    vs.length 0 (by omega)
  rw [List.drop_zero] at hfifo
  exact hfifo

/-- C5 counterexample: constructing with capacity 0 is NOT fatal — the
constructor hands back an engine (empty buffer, write cursor `2^64 - 1`,
read cursor 0). -/
theorem claim_c5_cex : NewManyToOne Nat 0 = some ⟨U64 - 1, [], 0⟩ := by decide

/-- C5 amended: a negative capacity is fatal at construction (`make`
panics), but capacity 0 is accepted at construction and an engine is
handed back; that engine is unusable — every `Set` and every `TryNext` on
it panics (modulo by zero). -/
theorem claim_c5_amended (α : Type) [DecidableEq α] :
    (∀ size : Int, size < 0 → NewManyToOne α size = none) ∧
    (∃ d : ManyToOne α, NewManyToOne α 0 = some d ∧
      (∀ v : α, Set d v = none) ∧ TryNext d = none) := by
  constructor
  · intro size hneg
    rw [NewManyToOne, if_pos hneg]
  · refine ⟨fresh α 0, ?_, ?_, ?_⟩
    · rw [NewManyToOne, if_neg (by omega)]
      rfl
    · intro v
      rw [ManyToOne.Set, if_pos (by simp [fresh])]
    · rw [ManyToOne.TryNext, if_pos (by simp [fresh])]

/-- C7: Empty read.  If the slot at `readIndex % N` has never been
written (`nil`) — in particular on a fresh diode — `TryNext` returns
`ok = false` with no value, does not alert, and leaves the whole state
(in particular the read cursor) unchanged. -/
theorem claim_c7 (α : Type) [DecidableEq α] (d : ManyToOne α)
    (hlen : 0 < d.buffer.length)
    (hempty : d.buffer.getD (d.readIndex % d.buffer.length) none = none) :
    TryNext d = some ⟨none, false, d, []⟩ :=
  TryNext_empty (by omega) hempty

/-- C8: Write-cursor initialization.  Construction (any size ≥ 0) sets the
write cursor to `2^64 - 1` (zero minus one, wrapped), so the wrapping
increment-and-fetch gives the first write sequence number 0 and the
`k`-th write overall sequence number `k - 1`: after `|vs| + 1` writes the
newest slot holds sequence `|vs|` and the cursor reads `|vs|`. -/
theorem claim_c8 (α : Type) [DecidableEq α] :
    (∀ size : Int, 0 ≤ size → ∃ d : ManyToOne α, NewManyToOne α size = some d ∧
      d.writeIndex = U64 - 1) ∧
    (∀ (N : Nat) (vs : List α) (v : α), 0 < N → vs.length + 1 < U64 →
      ∃ d, setMany (fresh α N) (vs ++ [v]) = some d ∧
        d.writeIndex = vs.length ∧
        d.buffer.getD (vs.length % N) none = some ⟨v, vs.length⟩) := by
  constructor
  · intro size hpos
    refine ⟨fresh α size.toNat, ?_, rfl⟩
    rw [NewManyToOne, if_neg (by omega)]
  · intro N vs v hN hk
    have hsm := setMany_model hN (vs ++ [v]) (by simpa using hk)
    refine ⟨_, hsm, ?_, ?_⟩
    · show ((U64 - 1 + (vs ++ [v]).length) % U64) = vs.length
      simp only [List.length_append, List.length_singleton]
      unfold U64 at hk ⊢
      omega
    · show (modelBuffer (vs ++ [v]) N).getD (vs.length % N) none = some ⟨v, vs.length⟩
      rw [modelBuffer_snoc hN vs v, List.getD_eq_getElem?_getD, List.getElem?_set,
        if_pos rfl, if_pos (by rw [modelBuffer_length]; exact Nat.mod_lt _ hN)]
      rfl

/-- C9: Set always completes.  On every state reachable by sequential
`Set`s and `TryNext`s from a fresh diode of capacity `0 < N < 2^64`, and
for every value, the collision-retry loop exits within its `2^64`-step
budget and `Set` returns normally. -/
theorem claim_c9 (α : Type) [DecidableEq α] (N : Nat) (hN : 0 < N)
    (hNu : N < U64) (d : ManyToOne α) (vs : List α) (hreach : Reach N d vs)
    (v : α) : (Set d v).isSome := by
  obtain ⟨hlen, hwf⟩ := reach_buffer_wf hreach
  exact Set_total (by omega) (by omega) hwf v

/-- C10: Reads leave the buffer unchanged.  Whenever `TryNext` completes
(on any state at all), the buffer after the call is exactly the buffer
before it: the CAS on the read path expects a `nil` slot and therefore
never changes an occupied one. -/
theorem claim_c10 (α : Type) [DecidableEq α] (d : ManyToOne α)
    (r : ReadResult α) (h : TryNext d = some r) : r.state.buffer = d.buffer :=
  (TryNext_frame h).1

/-- C4: Slot invariant.  In any reachable state (write cursor not yet
wrapped), every slot `i < N` is either empty or holds the `(seq, value)`
pair of the most recent completed write whose sequence number is congruent
to `i` modulo `N`: the stored `seq` has residue `i`, is one of the claimed
sequence numbers, carries that write's value, and is the largest sequence
number with residue `i` claimed so far. -/
theorem claim_c4 (α : Type) [DecidableEq α] (N : Nat) (hN : 0 < N)
    (d : ManyToOne α) (vs : List α) (hreach : Reach N d vs)
    (hku : vs.length < U64) (i : Nat) (hi : i < N) :
    d.buffer.getD i none = none ∨
      ∃ b : Bucket α, d.buffer.getD i none = some b ∧ b.seq % N = i ∧
        b.seq < vs.length ∧ vs[b.seq]? = some b.data ∧
        ∀ j, j < vs.length → j % N = i → j ≤ b.seq := by
  obtain ⟨hw, hb, hr⟩ := reach_inv hN hreach hku
  rw [hb, modelBuffer_getD vs hi]
  by_cases hocc : i < vs.length
  · right
    have hL : lastIdx vs.length N i < vs.length := lastIdx_lt hocc
    rw [if_pos hocc, List.getElem?_eq_getElem hL]
    simp only [Option.map_some']
    refine ⟨⟨vs[lastIdx vs.length N i], lastIdx vs.length N i⟩, rfl, ?_, hL, ?_, ?_⟩
    · show lastIdx vs.length N i % N = i
      rw [lastIdx_mod hN hocc, Nat.mod_eq_of_lt hi]
    · show vs[lastIdx vs.length N i]? = some vs[lastIdx vs.length N i]
      exact List.getElem?_eq_getElem hL
    · intro j hj hmod
      exact le_lastIdx hN hocc (by rw [hmod, Nat.mod_eq_of_lt hi]) hj
  · left
    rw [if_neg hocc]

/-- C6: Non-negative drop count.  In every reachable state (at most `2^63`
writes so far, so no wrap) in which `TryNext` invokes the alerter — the
catch-up, triggered when the loaded slot's sequence exceeds the read
cursor — the `int` it passes, `int((writeIndex + 1) - readIndex - N)`, is
greater than or equal to zero. -/
theorem claim_c6 (α : Type) [DecidableEq α] (N : Nat) (hN : 0 < N)
    (d : ManyToOne α) (vs : List α) (hreach : Reach N d vs)
    (hub : vs.length ≤ 2 ^ 63) (r : ReadResult α) (hread : TryNext d = some r)
    (x : Int) (hx : x ∈ r.alerts) : 0 ≤ x := by
  have hku : vs.length < U64 := by unfold U64 at *; omega
  obtain ⟨hw, hb, hr⟩ := reach_inv hN hreach hku
  have hlenN : d.buffer.length = N := by rw [hb]; exact modelBuffer_length vs N
  unfold TryNext at hread
  rw [if_neg (by omega)] at hread
  rcases hslot : d.buffer.getD (d.readIndex % d.buffer.length) none with _ | b
  · simp only [hslot] at hread
    obtain rfl := Option.some_inj.mp hread
    simp at hx
  · simp only [hslot] at hread
    by_cases hseq : b.seq > d.readIndex
    case neg =>
      rw [if_neg hseq] at hread
      simp only [reduceCtorEq, if_false] at hread
      obtain rfl := Option.some_inj.mp hread
      simp at hx
    case pos =>
      rw [if_pos hseq] at hread
      rcases h2 : d.buffer.getD
          (sub64 ((d.writeIndex + 1) % U64) d.buffer.length % d.buffer.length) none
        with _ | b2
      · simp only [h2] at hread
        exact Option.noConfusion hread
      · simp only [h2, reduceCtorEq, if_false] at hread
        obtain rfl := Option.some_inj.mp hread
        simp only [List.mem_singleton] at hx
        subst hx
        have hiN : d.readIndex % N < N := Nat.mod_lt _ hN
        rw [hb, modelBuffer_length, modelBuffer_getD vs hiN] at hslot
        by_cases hocc : d.readIndex % N < vs.length
        case neg =>
          rw [if_neg hocc] at hslot
          exact Option.noConfusion hslot
        case pos =>
        rw [if_pos hocc, List.getElem?_eq_getElem (lastIdx_lt hocc)] at hslot
        simp only [Option.map_some'] at hslot
        obtain rfl := Option.some_inj.mp hslot
        have hseqL : lastIdx vs.length N (d.readIndex % N) > d.readIndex := hseq
        have hLlt : lastIdx vs.length N (d.readIndex % N) < vs.length :=
          lastIdx_lt hocc
        have hrd_lt : d.readIndex < vs.length := by omega
        have hmodeq : d.readIndex % N = lastIdx vs.length N (d.readIndex % N) % N := by
          have h1 := lastIdx_mod hN hocc
          rw [Nat.mod_mod_of_dvd _ (dvd_refl N)] at h1
          exact h1.symm
        have hplus : d.readIndex + N ≤ lastIdx vs.length N (d.readIndex % N) :=
          add_le_of_mod_eq hmodeq hseqL
        have hwp : (d.writeIndex + 1) % U64 = vs.length := by
          rw [hw]
          unfold U64 at hku ⊢
          omega
        show (0 : Int) ≤ int64ofUInt64
          (sub64 (sub64 ((d.writeIndex + 1) % U64) d.readIndex) d.buffer.length)
        rw [hlenN, hwp, sub64_eq (by omega) hku, sub64_eq (by omega) (by omega),
          int64ofUInt64, if_pos (by omega)]
        exact Int.natCast_nonneg _

/-! ## Concrete witnesses -/

/-- Witness for C1: capacity 4, six writes tagged 10..15, one read. -/
theorem claim_c1_witness :
    ((0 : Nat) < 4 ∧ 4 < ([10, 11, 12, 13, 14, 15] : List Nat).length ∧
      ([10, 11, 12, 13, 14, 15] : List Nat).length ≤ 2 ^ 63) ∧
    (∃ d r, setMany (fresh Nat 4) [10, 11, 12, 13, 14, 15] = some d ∧
      TryNext d = some r ∧ r.ok = true ∧
      r.data = ([10, 11, 12, 13, 14, 15] :
        List Nat)[([10, 11, 12, 13, 14, 15] : List Nat).length - 4]? ∧
      r.alerts = [((([10, 11, 12, 13, 14, 15] : List Nat).length - 4 : Nat) : Int)]) :=
  ⟨⟨by decide, by decide, by decide⟩,
    claim_c1 Nat 4 [10, 11, 12, 13, 14, 15] (by decide) (by decide) (by decide)⟩

/-- Witness for C3: capacity 4, three writes, three reads. -/
theorem claim_c3_witness :
    ((0 : Nat) < 4 ∧ (4 : Nat) < U64 ∧ ([7, 8, 9] : List Nat).length ≤ 4) ∧
    (∃ d d', setMany (fresh Nat 4) [7, 8, 9] = some d ∧
      readSeq ([7, 8, 9] : List Nat).length d
        = some (([7, 8, 9] : List Nat).map (fun v => (some v, true)), [], d')) :=
  ⟨⟨by decide, by decide, by decide⟩,
    claim_c3 Nat 4 [7, 8, 9] (by decide) (by decide) (by decide)⟩

/-- Witness for C4: capacity 1 after one write of 5. -/
theorem claim_c4_witness :
    ((0 : Nat) < 1 ∧ ([5] : List Nat).length < U64 ∧ (0 : Nat) < 1) ∧
    ((⟨0, [some ⟨5, 0⟩], 0⟩ : ManyToOne Nat).buffer.getD 0 none = none ∨
      ∃ b : Bucket Nat,
        (⟨0, [some ⟨5, 0⟩], 0⟩ : ManyToOne Nat).buffer.getD 0 none = some b ∧
        b.seq % 1 = 0 ∧ b.seq < ([5] : List Nat).length ∧
        ([5] : List Nat)[b.seq]? = some b.data ∧
        ∀ j, j < ([5] : List Nat).length → j % 1 = 0 → j ≤ b.seq) :=
  ⟨⟨by decide, by decide, by decide⟩,
    claim_c4 Nat 1 (by decide) ⟨0, [some ⟨5, 0⟩], 0⟩ [5]
      (@Reach.set Nat _ 1 (fresh Nat 1) [] 5 ⟨0, [some ⟨5, 0⟩], 0⟩
        Reach.init (by decide)) (by decide) 0 (by decide)⟩

/-- Witness for C5 (amended): sizes -1 and 0. -/
theorem claim_c5_witness :
    ((-1 : Int) < 0 ∧ NewManyToOne Nat (-1) = none) ∧
    (∃ d : ManyToOne Nat, NewManyToOne Nat 0 = some d ∧
      (∀ v : Nat, ManyToOne.Set d v = none) ∧ TryNext d = none) :=
  ⟨⟨by decide, (claim_c5_amended Nat).1 (-1) (by decide)⟩, (claim_c5_amended Nat).2⟩

/-- Witness for C6: capacity 1 after two writes; the read alerts 1 drop. -/
theorem claim_c6_witness :
    ((0 : Nat) < 1 ∧ ([3, 4] : List Nat).length ≤ 2 ^ 63 ∧
      TryNext (⟨1, [some ⟨4, 1⟩], 0⟩ : ManyToOne Nat)
        = some ⟨some 4, true, ⟨1, [some ⟨4, 1⟩], 2⟩, [1]⟩ ∧
      (1 : Int) ∈ ((⟨some 4, true, ⟨1, [some ⟨4, 1⟩], 2⟩, [1]⟩ : ReadResult Nat).alerts)) ∧
    (0 : Int) ≤ 1 :=
  ⟨⟨by decide, by decide, by decide, by decide⟩,
    claim_c6 Nat 1 (by decide) ⟨1, [some ⟨4, 1⟩], 0⟩ [3, 4]
      (@Reach.set Nat _ 1 ⟨0, [some ⟨3, 0⟩], 0⟩ [3] 4 ⟨1, [some ⟨4, 1⟩], 0⟩
        (@Reach.set Nat _ 1 (fresh Nat 1) [] 3 ⟨0, [some ⟨3, 0⟩], 0⟩
          Reach.init (by decide))
        (by decide))
      (by decide) ⟨some 4, true, ⟨1, [some ⟨4, 1⟩], 2⟩, [1]⟩ (by decide) 1 (by decide)⟩

/-- Witness for C7: a fresh diode of capacity 4 (first slot never written). -/
theorem claim_c7_witness :
    ((0 : Nat) < (fresh Nat 4).buffer.length ∧
      (fresh Nat 4).buffer.getD
        ((fresh Nat 4).readIndex % (fresh Nat 4).buffer.length) none = none) ∧
    TryNext (fresh Nat 4) = some ⟨none, false, fresh Nat 4, []⟩ :=
  ⟨⟨by decide, by decide⟩, claim_c7 Nat (fresh Nat 4) (by decide) (by decide)⟩

/-- Witness for C8: size 3 construction; third write on capacity 4. -/
theorem claim_c8_witness :
    ((0 : Int) ≤ 3 ∧ (0 : Nat) < 4 ∧ ([10, 11] : List Nat).length + 1 < U64) ∧
    (∃ d : ManyToOne Nat, NewManyToOne Nat 3 = some d ∧ d.writeIndex = U64 - 1) ∧
    (∃ d, setMany (fresh Nat 4) ([10, 11] ++ [12]) = some d ∧
      d.writeIndex = ([10, 11] : List Nat).length ∧
      d.buffer.getD (([10, 11] : List Nat).length % 4) none
        = some ⟨12, ([10, 11] : List Nat).length⟩) :=
  ⟨⟨by decide, by decide, by decide⟩,
    (claim_c8 Nat).1 3 (by decide),
    (claim_c8 Nat).2 4 [10, 11] 12 (by decide) (by decide)⟩

/-- Witness for C9: the fresh diode of capacity 1, write of 7. -/
theorem claim_c9_witness :
    ((0 : Nat) < 1 ∧ (1 : Nat) < U64) ∧ (ManyToOne.Set (fresh Nat 1) 7).isSome :=
  ⟨⟨by decide, by decide⟩,
    claim_c9 Nat 1 (by decide) (by decide) (fresh Nat 1) [] Reach.init 7⟩

/-- Witness for C10: one occupied slot, one successful read. -/
theorem claim_c10_witness :
    TryNext (⟨0, [some ⟨42, 0⟩], 0⟩ : ManyToOne Nat)
      = some ⟨some 42, true, ⟨0, [some ⟨42, 0⟩], 1⟩, []⟩ ∧
    (⟨some 42, true, ⟨0, [some ⟨42, 0⟩], 1⟩, []⟩ : ReadResult Nat).state.buffer
      = (⟨0, [some ⟨42, 0⟩], 0⟩ : ManyToOne Nat).buffer :=
  ⟨by decide, claim_c10 Nat _ _ (by decide)⟩
